import Mathlib

/-!
Verification of the `webformdeserializer` binding algorithm.

The repository is a Rust procedural macro (`src/webformd_macros/src/lib.rs`,
function `deserialize`) that, for a struct with named fields, generates an
implementation of

  fn deserialize(data: &Vec<(String, String)>) -> Result<Self, String>

The generated code consists of, per field and in field order:
  * a declaration of an accumulator variable,
  * a match arm keyed on the field's declared name that updates the
    accumulator for each input pair whose key matches, and
  * an assignment expression in the struct literal that turns the final
    accumulator into the field's value, returning `Err` on failure.

This file embeds that generated program shallowly.  A schema is the list of
field descriptors the macro reads off the struct (name, shape derived from
`is_option`/`is_vec`, and the `#[webformd(from_str)]` attribute flag), and
`deserialize` below replays exactly the generated code: accumulator
initialisation (`declarations`), the key-matching loop (`matches`, first
matching arm wins, unknown keys fall through to `_ => {}`), and the struct
literal (`assignments`, evaluated in field order, aborting at the first
`return Err`).

The element type produced by `str::parse::<T>()` is abstracted as a type
parameter `τ` together with a parse function `String → Except String τ`
whose error is already stringified (the generated code only ever uses
`e.to_string()`).
-/

namespace WebformD

/-- Shape of a struct field as the macro classifies it with `is_option` and
`is_vec`: `Option<Vec<_>>`, `Option<_>`, `Vec<_>`, or a plain scalar. -/
inductive FieldShape where
  | requiredScalar
  | optionalScalar
  | requiredList
  | optionalList
deriving DecidableEq, Repr

/-- One field of the derive target: its declared name, its shape, and
whether it carries the `#[webformd(from_str)]` attribute. -/
structure FieldDesc where
  name : String
  shape : FieldShape
  fromStr : Bool
deriving DecidableEq, Repr

/-- Value bound to one field in the generated struct literal.  Raw-string
variants correspond to fields without `from_str`; `parsedList` and
`optParsedList` to the `Vec<T>` / `Option<Vec<T>>` fields with `from_str`. -/
inductive BoundValue (τ : Type) where
  | scalar (s : String)
  | optScalar (s : Option String)
  | rawList (xs : List String)
  | optRawList (xs : Option (List String))
  | parsedList (xs : List τ)
  | optParsedList (xs : Option (List τ))
deriving DecidableEq, Repr

/-- Accumulator variable generated for one field: `Vec<String>` for list
shapes, `Option<Option<String>>` for optional scalars, `Option<String>` for
required scalars. -/
inductive Acc where
  | vec (xs : List String)
  | optOpt (v : Option (Option String))
  | opt (v : Option String)
deriving DecidableEq, Repr

/-- The accumulator declaration the macro pushes for a field, if any.
Mirrors `declarations.push(...)` in `src/webformd_macros/src/lib.rs`:
list shapes get `Vec::new()`, optional scalars `None : Option<Option<String>>`,
required scalars without `from_str` `None : Option<String>`.  A required
scalar with `from_str` hits the empty branch (line 127, `// ...`): the macro
pushes no declaration, no match arm and no assignment for it. -/
def genDecl (f : FieldDesc) : Option Acc :=
  match f.shape with
  | .optionalList => some (.vec [])
  | .optionalScalar => some (.optOpt none)
  | .requiredList => some (.vec [])
  | .requiredScalar => if f.fromStr then none else some (.opt none)

/-- Effect of one executed match arm on its accumulator: list accumulators
push the value, scalar accumulators overwrite with `Some(value.clone())`. -/
def updateAcc (a : Acc) (v : String) : Acc :=
  match a with
  | .vec xs => .vec (xs ++ [v])
  | .optOpt _ => .optOpt (some (some v))
  | .opt _ => .opt (some v)

/-- Accumulator state at the start of the generated loop: one entry per
field that got a declaration, in field order. -/
def initState (schema : List FieldDesc) : List (FieldDesc × Acc) :=
  schema.filterMap (fun f => (genDecl f).map (fun a => (f, a)))

/-- One iteration of the generated `for (key, value) in data` loop: the
match arms are tried in field order, the first arm whose field name equals
the key fires, and a key matching no arm falls through to `_ => {}`. -/
def stepPair (st : List (FieldDesc × Acc)) (kv : String × String) :
    List (FieldDesc × Acc) :=
  match st with
  | [] => []
  | (f, a) :: rest =>
    if f.name = kv.1 then (f, updateAcc a kv.2) :: rest
    else (f, a) :: stepPair rest kv

/-- `temp_var.into_iter().map(|s| s.parse()).collect::<Result<Vec<_>, _>>()`:
parse every element in order, stopping at the first parse error. -/
def parseAll (parse : String → Except String τ) : List String → Except String (List τ)
  | [] => .ok []
  | s :: rest =>
    match parse s with
    | .error e => .error e
    | .ok v =>
      match parseAll parse rest with
      | .error e => .error e
      | .ok vs => .ok (v :: vs)

/-- The assignment expression the macro generates for a field, evaluated on
the field's final accumulator.  Mirrors `assignments.push(...)`:
  * `Option<Vec<T>>` with `from_str`: parse all, `Err(e.to_string())` on
    failure, `None` when the parsed vector is empty;
  * `Option<Vec<String>>`: `None` when empty, else `Some`;
  * `Option<T>`: `flatten()`;
  * `Vec<T>` with `from_str`: parse all, `Err(e.to_string())` on failure;
  * `Vec<String>`: the accumulator as-is;
  * required scalar without `from_str`:
    `ok_or_else(|| format!("Missing required field: \x7b\x7d", ...))?`.
The catch-all branch is unreachable on states produced by `genDecl` and
`updateAcc`, which keep each accumulator in the constructor its declaration
chose. -/
def fieldAssign (parse : String → Except String τ) (f : FieldDesc) (a : Acc) :
    Except String (BoundValue τ) :=
  match f.shape, a with
  | .optionalList, .vec xs =>
    if f.fromStr then
      match parseAll parse xs with
      | .error e => .error e
      | .ok vs => .ok (.optParsedList (if vs.isEmpty then none else some vs))
    else
      .ok (.optRawList (if xs.isEmpty then none else some xs))
  | .requiredList, .vec xs =>
    if f.fromStr then
      match parseAll parse xs with
      | .error e => .error e
      | .ok vs => .ok (.parsedList vs)
    else
      .ok (.rawList xs)
  | .optionalScalar, .optOpt v => .ok (.optScalar v.join)
  | .requiredScalar, .opt v =>
    match v with
    | some s => .ok (.scalar s)
    | none => .error ("Missing required field: \x27" ++ f.name ++ "\x27")
  | _, _ => .error "unreachable accumulator state"

/-- The generated struct literal: assignment expressions evaluated in field
order, the first `return Err(..)` aborting the construction.  The record is
the list of `(field name, bound value)` pairs actually assigned. -/
def buildRecord (parse : String → Except String τ) :
    List (FieldDesc × Acc) → Except String (List (String × BoundValue τ))
  | [] => .ok []
  | (f, a) :: rest =>
    match fieldAssign parse f a with
    | .error e => .error e
    | .ok v =>
      match buildRecord parse rest with
      | .error e => .error e
      | .ok r => .ok ((f.name, v) :: r)

/-- The generated `fn deserialize(data: &Vec<(String, String)>)`: initialise
the accumulators, run the key-matching loop over `data`, then evaluate the
struct literal.  A required scalar field with `from_str` contributes nothing
anywhere (the macro generates no code for it), so it is absent from the
result record. -/
def deserialize (schema : List FieldDesc) (parse : String → Except String τ)
    (data : List (String × String)) : Except String (List (String × BoundValue τ)) :=
  buildRecord parse (data.foldl stepPair (initState schema))

/-! ### Derived views used to state the claims -/

/-- All values carried by pairs whose key equals `name`, in input order. -/
def valuesFor (name : String) (data : List (String × String)) : List String :=
  data.filterMap (fun kv => if kv.1 = name then some kv.2 else none)

/-- Folding a sequence of matched values into an accumulator. -/
def accFor (a : Acc) (vs : List String) : Acc := vs.foldl updateAcc a

/-- Last element of a list of values, if any: the value the generated code
keeps for a scalar field whose key repeats. -/
def lastVal : List String → Option String
  | [] => none
  | v :: vs =>
    match lastVal vs with
    | none => some v
    | some x => some x

/-- Outcome of one field in isolation on its matched values: `none` when the
macro generates no code for the field (required scalar with `from_str`),
otherwise the assignment evaluated on the fully folded accumulator. -/
def fieldResult (parse : String → Except String τ) (f : FieldDesc)
    (vs : List String) : Option (Except String (BoundValue τ)) :=
  (genDecl f).map (fun a => fieldAssign parse f (accFor a vs))

/-- Field-by-field restatement of `deserialize` (proved equal to it below
when the schema's field names are distinct): walk the schema in order,
skip fields without generated code, abort at the first failing field. -/
def bindFields (parse : String → Except String τ) (data : List (String × String)) :
    List FieldDesc → Except String (List (String × BoundValue τ))
  | [] => .ok []
  | f :: rest =>
    match fieldResult parse f (valuesFor f.name data) with
    | none => bindFields parse data rest
    | some (.error e) => .error e
    | some (.ok v) =>
      match bindFields parse data rest with
      | .error e => .error e
      | .ok r => .ok ((f.name, v) :: r)

/-- Boolean success test on results, used to state counterexamples without
binders. -/
def exceptIsOk : Except String α → Bool
  | .ok _ => true
  | .error _ => false

/-- Substring occurrence test: `needle.data` occurs contiguously in
`hay.data`.  `charsLead n h` means `h` starts with `n`. -/
def charsLead : List Char → List Char → Bool
  | [], _ => true
  | _ :: _, [] => false
  | a :: as, b :: bs => a == b && charsLead as bs

/-- Whether `needle` occurs contiguously somewhere in `hay`. -/
def charsOccur (needle : List Char) : List Char → Bool
  | [] => needle.isEmpty
  | b :: t => charsLead needle (b :: t) || charsOccur needle t

/-- Whether the string `needle` occurs contiguously in the string `hay`. -/
def strOccurs (needle hay : String) : Bool :=
  charsOccur needle.data hay.data

/-- Model of Rust's `<i64 as FromStr>::from_str`, stringified with
`.to_string()` exactly as the generated code does.  It stands in for the
external standard-library parser in concrete instances; the claims
themselves are proved for an arbitrary parse function. -/
def parseI64 (s : String) : Except String Int :=
  match s.data with
  | [] => .error "cannot parse integer from empty string"
  | c :: cs =>
    let p := if c = '-' ∨ c = '+' then cs else c :: cs
    if p.isEmpty then .error "invalid digit found in string"
    else if p.all (fun d => d.isDigit) then
      let n : Nat := p.foldl (fun a d => a * 10 + (d.toNat - 48)) 0
      if c = '-' then
        if n ≤ 2 ^ 63 then .ok (-(n : Int))
        else .error "number too small to fit in target type"
      else
        if n < 2 ^ 63 then .ok (n : Int)
        else .error "number too large to fit in target type"
    else .error "invalid digit found in string"

/-! ### Accumulator and aggregation lemmas -/

theorem accFor_nil (a : Acc) : accFor a [] = a := rfl

theorem accFor_cons (a : Acc) (v : String) (vs : List String) :
    accFor a (v :: vs) = accFor (updateAcc a v) vs := rfl

theorem accFor_vec (xs vs : List String) : accFor (.vec xs) vs = .vec (xs ++ vs) := by
  induction vs generalizing xs with
  | nil => simp [accFor]
  | cons v vs ih =>
    rw [accFor_cons]
    show accFor (.vec (xs ++ [v])) vs = _
    rw [ih]
    simp

theorem accFor_opt (o : Option String) (vs : List String) :
    accFor (.opt o) vs =
      .opt (match lastVal vs with | none => o | some x => some x) := by
  induction vs generalizing o with
  | nil => rfl
  | cons v vs ih =>
    rw [accFor_cons]
    show accFor (.opt (some v)) vs = _
    rw [ih]
    cases h : lastVal vs <;> simp [lastVal, h]

theorem accFor_optOpt (o : Option (Option String)) (vs : List String) :
    accFor (.optOpt o) vs =
      .optOpt (match lastVal vs with | none => o | some x => some (some x)) := by
  induction vs generalizing o with
  | nil => rfl
  | cons v vs ih =>
    rw [accFor_cons]
    show accFor (.optOpt (some (some v))) vs = _
    rw [ih]
    cases h : lastVal vs <;> simp [lastVal, h]

theorem valuesFor_nil (n : String) : valuesFor n [] = [] := rfl

theorem valuesFor_cons (n : String) (kv : String × String) (data : List (String × String)) :
    valuesFor n (kv :: data) =
      if kv.1 = n then kv.2 :: valuesFor n data else valuesFor n data := by
  by_cases h : kv.1 = n <;> simp [valuesFor, List.filterMap_cons, h]

/-! ### Characterizing the generated loop -/

/-- Pointwise form of one loop iteration: the field whose declared name is
the key gets its accumulator updated. -/
def updOne (kv : String × String) (q : FieldDesc × Acc) : FieldDesc × Acc :=
  if q.1.name = kv.1 then (q.1, updateAcc q.2 kv.2) else q

theorem updOne_fst (kv : String × String) (q : FieldDesc × Acc) :
    (updOne kv q).1 = q.1 := by
  unfold updOne
  split <;> rfl

theorem stepPair_fst (kv : String × String) :
    ∀ st : List (FieldDesc × Acc),
      (stepPair st kv).map (fun q => q.1) = st.map (fun q => q.1) := by
  intro st
  induction st with
  | nil => rfl
  | cons q rest ih =>
    obtain ⟨f, a⟩ := q
    by_cases h : f.name = kv.1 <;> simp [stepPair, h, ih]

theorem stepPair_skip (kv : String × String) :
    ∀ st : List (FieldDesc × Acc),
      (∀ q ∈ st, q.1.name ≠ kv.1) → stepPair st kv = st := by
  intro st
  induction st with
  | nil => intro _; rfl
  | cons q rest ih =>
    intro h
    obtain ⟨f, a⟩ := q
    have hf : f.name ≠ kv.1 := h (f, a) (List.mem_cons_self _ _)
    simp [stepPair, hf]
    exact ih (fun q' hq' => h q' (List.mem_cons_of_mem _ hq'))

theorem map_updOne_eq_self (kv : String × String) :
    ∀ st : List (FieldDesc × Acc),
      (∀ q ∈ st, q.1.name ≠ kv.1) → st.map (updOne kv) = st := by
  intro st
  induction st with
  | nil => intro _; rfl
  | cons q rest ih =>
    intro h
    have hq : q.1.name ≠ kv.1 := h q (List.mem_cons_self _ _)
    simp [updOne, hq]
    exact ih (fun q' hq' => h q' (List.mem_cons_of_mem _ hq'))

theorem stepPair_eq_map (kv : String × String) :
    ∀ st : List (FieldDesc × Acc),
      ((st.map (fun q => q.1.name)).Nodup) → stepPair st kv = st.map (updOne kv) := by
  intro st
  induction st with
  | nil => intro _; rfl
  | cons q rest ih =>
    intro h
    obtain ⟨f, a⟩ := q
    simp only [List.map_cons, List.nodup_cons] at h
    obtain ⟨hnot, hnd⟩ := h
    by_cases hf : f.name = kv.1
    · have hne : ∀ q' ∈ rest, q'.1.name ≠ kv.1 := by
        intro q' hq' hcon
        exact hnot (by
          rw [hf, ← hcon]
          exact List.mem_map_of_mem (fun q => q.1.name) hq')
      simp [stepPair, updOne, hf, map_updOne_eq_self kv rest hne]
    · simp [stepPair, updOne, hf, ih hnd]

theorem foldl_stepPair :
    ∀ (data : List (String × String)) (st : List (FieldDesc × Acc)),
      ((st.map (fun q => q.1.name)).Nodup) →
      data.foldl stepPair st =
        st.map (fun q => (q.1, accFor q.2 (valuesFor q.1.name data))) := by
  intro data
  induction data with
  | nil =>
    intro st _
    simp only [List.foldl_nil, valuesFor_nil, accFor_nil]
    induction st with
    | nil => rfl
    | cons q rest ih => cases q; simp [ih]
  | cons kv data' ih =>
    intro st h
    have hnd' : (((st.map (updOne kv)).map (fun q => q.1.name)).Nodup) := by
      rw [List.map_map]
      have hfun : ((fun q : FieldDesc × Acc => q.1.name) ∘ updOne kv) =
          (fun q : FieldDesc × Acc => q.1.name) := by
        funext q
        simp [Function.comp, updOne_fst]
      rw [hfun]
      exact h
    rw [List.foldl_cons, stepPair_eq_map kv st h, ih (st.map (updOne kv)) hnd',
      List.map_map]
    congr 1
    funext q
    by_cases hq : q.1.name = kv.1
    · simp only [Function.comp_apply, updOne, if_pos hq, valuesFor_cons,
        if_pos hq.symm, accFor_cons]
    · have hne : kv.1 ≠ q.1.name := fun hcon => hq hcon.symm
      simp only [Function.comp_apply, updOne, if_neg hq, valuesFor_cons, if_neg hne]

/-! ### Initial state lemmas -/

theorem initState_nil : initState [] = [] := rfl

theorem initState_cons_none (f : FieldDesc) (schema : List FieldDesc)
    (h : genDecl f = none) : initState (f :: schema) = initState schema := by
  simp [initState, List.filterMap_cons, h]

theorem initState_cons_some (f : FieldDesc) (schema : List FieldDesc) (a : Acc)
    (h : genDecl f = some a) : initState (f :: schema) = (f, a) :: initState schema := by
  simp [initState, List.filterMap_cons, h]

theorem initState_append (l₁ l₂ : List FieldDesc) :
    initState (l₁ ++ l₂) = initState l₁ ++ initState l₂ := by
  simp [initState, List.filterMap_append]

theorem initState_names_sublist (schema : List FieldDesc) :
    List.Sublist ((initState schema).map (fun q => q.1.name))
      (schema.map (fun f => f.name)) := by
  induction schema with
  | nil => simp [initState]
  | cons f rest ih =>
    cases h : genDecl f with
    | none =>
      rw [initState_cons_none f rest h, List.map_cons]
      exact ih.cons _
    | some a =>
      rw [initState_cons_some f rest a h, List.map_cons, List.map_cons]
      exact ih.cons₂ _

theorem initState_names_nodup (schema : List FieldDesc)
    (h : (schema.map (fun f => f.name)).Nodup) :
    ((initState schema).map (fun q => q.1.name)).Nodup :=
  (initState_names_sublist schema).nodup h

theorem initState_fst_subset (schema : List FieldDesc) (f : FieldDesc)
    (h : f ∈ (initState schema).map (fun q => q.1)) : f ∈ schema := by
  induction schema with
  | nil => simp [initState] at h
  | cons g rest ih =>
    cases hg : genDecl g with
    | none =>
      rw [initState_cons_none g rest hg] at h
      exact List.mem_cons_of_mem _ (ih h)
    | some a =>
      rw [initState_cons_some g rest a hg, List.map_cons] at h
      cases List.mem_cons.mp h with
      | inl h1 => rw [h1]; exact List.mem_cons_self _ _
      | inr h2 => exact List.mem_cons_of_mem _ (ih h2)

/-! ### The master decomposition: `deserialize` evaluated field by field -/

theorem buildRecord_initState_map (parse : String → Except String τ)
    (data : List (String × String)) :
    ∀ schema : List FieldDesc,
      buildRecord parse
        ((initState schema).map (fun q => (q.1, accFor q.2 (valuesFor q.1.name data)))) =
      bindFields parse data schema := by
  intro schema
  induction schema with
  | nil => rfl
  | cons f rest ih =>
    cases h : genDecl f with
    | none =>
      rw [initState_cons_none f rest h]
      show _ = bindFields parse data (f :: rest)
      simp only [bindFields, fieldResult, h, Option.map_none']
      exact ih
    | some a =>
      rw [initState_cons_some f rest a h, List.map_cons]
      show buildRecord parse ((f, accFor a (valuesFor f.name data)) :: _) = _
      simp only [bindFields, fieldResult, h, Option.map_some', buildRecord]
      cases hfa : fieldAssign parse f (accFor a (valuesFor f.name data)) with
      | error e => rfl
      | ok v =>
        rw [ih]

/-- With distinct field names (which Rust guarantees for named struct
fields), the generated binder is the field-by-field walk `bindFields`. -/
theorem deserialize_eq_bindFields (schema : List FieldDesc)
    (parse : String → Except String τ) (data : List (String × String))
    (hnd : (schema.map (fun f => f.name)).Nodup) :
    deserialize schema parse data = bindFields parse data schema := by
  unfold deserialize
  rw [foldl_stepPair data (initState schema) (initState_names_nodup schema hnd)]
  exact buildRecord_initState_map parse data schema

/-! ### Per-field outcomes -/

theorem fieldResult_requiredList_raw (parse : String → Except String τ)
    (n : String) (vs : List String) :
    fieldResult parse ⟨n, .requiredList, false⟩ vs = some (.ok (.rawList vs)) := by
  simp [fieldResult, genDecl, accFor_vec, fieldAssign]

theorem fieldResult_requiredList_conv (parse : String → Except String τ)
    (n : String) (vs : List String) :
    fieldResult parse ⟨n, .requiredList, true⟩ vs =
      some (match parseAll parse vs with
            | .error e => .error e
            | .ok ws => .ok (.parsedList ws)) := by
  simp only [fieldResult, genDecl, Option.map_some', accFor_vec, List.nil_append]
  cases h : parseAll parse vs <;> simp [fieldAssign, h]

theorem fieldResult_optionalList_raw (parse : String → Except String τ)
    (n : String) (vs : List String) :
    fieldResult parse ⟨n, .optionalList, false⟩ vs =
      some (.ok (.optRawList (if vs.isEmpty then none else some vs))) := by
  simp [fieldResult, genDecl, accFor_vec, fieldAssign]

theorem fieldResult_optionalList_conv (parse : String → Except String τ)
    (n : String) (vs : List String) :
    fieldResult parse ⟨n, .optionalList, true⟩ vs =
      some (match parseAll parse vs with
            | .error e => .error e
            | .ok ws => .ok (.optParsedList (if ws.isEmpty then none else some ws))) := by
  simp only [fieldResult, genDecl, Option.map_some', accFor_vec, List.nil_append]
  cases h : parseAll parse vs <;> simp [fieldAssign, h]

theorem fieldResult_optionalScalar (parse : String → Except String τ)
    (n : String) (b : Bool) (vs : List String) :
    fieldResult parse ⟨n, .optionalScalar, b⟩ vs =
      some (.ok (.optScalar (lastVal vs))) := by
  simp only [fieldResult, genDecl, Option.map_some', accFor_optOpt]
  cases h : lastVal vs <;> simp [fieldAssign, h, Option.join]

theorem fieldResult_requiredScalar_raw (parse : String → Except String τ)
    (n : String) (vs : List String) :
    fieldResult parse ⟨n, .requiredScalar, false⟩ vs =
      some (match lastVal vs with
            | some s => .ok (.scalar s)
            | none => .error ("Missing required field: \x27" ++ n ++ "\x27")) := by
  have hdecl : genDecl ⟨n, .requiredScalar, false⟩ = some (.opt none) := rfl
  rw [fieldResult, hdecl, Option.map_some', accFor_opt]
  cases h : lastVal vs <;> simp [fieldAssign, h]

theorem fieldResult_requiredScalar_conv (parse : String → Except String τ)
    (n : String) (vs : List String) :
    fieldResult parse ⟨n, .requiredScalar, true⟩ vs = none := by
  simp [fieldResult, genDecl]

/-! ### `parseAll` lemmas -/

theorem parseAll_error_of_mem (parse : String → Except String τ) :
    ∀ (vs : List String) (v : String), v ∈ vs → (∃ pe, parse v = .error pe) →
      ∃ e, parseAll parse vs = .error e := by
  intro vs
  induction vs with
  | nil => intro v hv; cases hv
  | cons u rest ih =>
    intro v hv hex
    obtain ⟨pe, hpe⟩ := hex
    cases List.mem_cons.mp hv with
    | inl h =>
      subst h
      exact ⟨pe, by simp [parseAll, hpe]⟩
    | inr h =>
      cases hu : parse u with
      | error e => exact ⟨e, by simp [parseAll, hu]⟩
      | ok w =>
        obtain ⟨e, he⟩ := ih v h ⟨pe, hpe⟩
        exact ⟨e, by simp [parseAll, hu, he]⟩

theorem parseAll_first_error (parse : String → Except String τ) :
    ∀ (p : List String) (v : String) (q : List String) (e : String),
      (∀ u ∈ p, ∃ w, parse u = .ok w) → parse v = .error e →
      parseAll parse (p ++ v :: q) = .error e := by
  intro p
  induction p with
  | nil =>
    intro v q e _ hv
    simp [parseAll, hv]
  | cons u p' ih =>
    intro v q e hok hv
    obtain ⟨w, hw⟩ := hok u (List.mem_cons_self _ _)
    have hrec := ih v q e (fun u' hu' => hok u' (List.mem_cons_of_mem _ hu')) hv
    simp [parseAll, hw, hrec]

theorem parseAll_ok_forall₂ (parse : String → Except String τ) :
    ∀ (vs : List String) (ws : List τ), parseAll parse vs = .ok ws →
      List.Forall₂ (fun u w => parse u = .ok w) vs ws := by
  intro vs
  induction vs with
  | nil =>
    intro ws h
    simp only [parseAll] at h
    cases h
    exact List.Forall₂.nil
  | cons u rest ih =>
    intro ws h
    cases hu : parse u with
    | error e => simp [parseAll, hu] at h
    | ok w =>
      cases hr : parseAll parse rest with
      | error e => simp [parseAll, hu, hr] at h
      | ok ws' =>
        simp only [parseAll, hu, hr] at h
        cases h
        exact List.Forall₂.cons hu (ih ws' hr)

/-! ### `bindFields` lemmas -/

theorem bindFields_ok_mem (parse : String → Except String τ)
    (data : List (String × String)) :
    ∀ (schema : List FieldDesc) (r : List (String × BoundValue τ)),
      bindFields parse data schema = .ok r →
      ∀ f ∈ schema, ∀ res, fieldResult parse f (valuesFor f.name data) = some res →
        ∃ v, res = .ok v ∧ (f.name, v) ∈ r := by
  intro schema
  induction schema with
  | nil =>
    intro r _ f hf
    cases hf
  | cons g rest ih =>
    intro r hr f hf res hres
    cases hg : fieldResult parse g (valuesFor g.name data) with
    | none =>
      rw [bindFields, hg] at hr
      cases List.mem_cons.mp hf with
      | inl h =>
        subst h
        rw [hg] at hres
        cases hres
      | inr h => exact ih r hr f h res hres
    | some exr =>
      cases exr with
      | error e => simp [bindFields, hg] at hr
      | ok v =>
        cases hrest : bindFields parse data rest with
        | error e => simp [bindFields, hg, hrest] at hr
        | ok r' =>
          rw [bindFields, hg, hrest] at hr
          cases hr
          cases List.mem_cons.mp hf with
          | inl h =>
            subst h
            rw [hg] at hres
            cases hres
            exact ⟨v, rfl, List.mem_cons_self _ _⟩
          | inr h =>
            obtain ⟨v', hv', hmem⟩ := ih r' hrest f h res hres
            exact ⟨v', hv', List.mem_cons_of_mem _ hmem⟩

theorem bindFields_error_of_mem (parse : String → Except String τ)
    (data : List (String × String)) :
    ∀ (schema : List FieldDesc) (f : FieldDesc), f ∈ schema →
      ∀ e, fieldResult parse f (valuesFor f.name data) = some (.error e) →
        ∃ e', bindFields parse data schema = .error e' := by
  intro schema
  induction schema with
  | nil =>
    intro f hf
    cases hf
  | cons g rest ih =>
    intro f hf e hres
    cases hg : fieldResult parse g (valuesFor g.name data) with
    | none =>
      cases List.mem_cons.mp hf with
      | inl h =>
        subst h
        rw [hg] at hres
        cases hres
      | inr h =>
        obtain ⟨e', he'⟩ := ih f h e hres
        exact ⟨e', by rw [bindFields, hg]; exact he'⟩
    | some exr =>
      cases exr with
      | error e₀ => exact ⟨e₀, by rw [bindFields, hg]⟩
      | ok v =>
        cases List.mem_cons.mp hf with
        | inl h =>
          subst h
          rw [hg] at hres
          cases hres
        | inr h =>
          obtain ⟨e', he'⟩ := ih f h e hres
          exact ⟨e', by rw [bindFields, hg, he']⟩

theorem bindFields_first_error (parse : String → Except String τ)
    (data : List (String × String)) :
    ∀ (pre : List FieldDesc) (f : FieldDesc) (post : List FieldDesc) (e : String),
      (∀ g ∈ pre, ∀ e', fieldResult parse g (valuesFor g.name data) ≠ some (.error e')) →
      fieldResult parse f (valuesFor f.name data) = some (.error e) →
      bindFields parse data (pre ++ f :: post) = .error e := by
  intro pre
  induction pre with
  | nil =>
    intro f post e _ hf
    simp [bindFields, hf]
  | cons g pre' ih =>
    intro f post e hok hf
    have hrec := ih f post e (fun g' hg' => hok g' (List.mem_cons_of_mem _ hg')) hf
    rw [List.cons_append, bindFields]
    cases hg : fieldResult parse g (valuesFor g.name data) with
    | none => exact hrec
    | some exr =>
      cases exr with
      | error e' => exact absurd hg (hok g (List.mem_cons_self _ _) e')
      | ok v => rw [hrec]

theorem bindFields_ok_of_all (parse : String → Except String τ)
    (data : List (String × String)) :
    ∀ schema : List FieldDesc,
      (∀ g ∈ schema, ∀ e, fieldResult parse g (valuesFor g.name data) ≠ some (.error e)) →
      ∃ r, bindFields parse data schema = .ok r := by
  intro schema
  induction schema with
  | nil => intro _; exact ⟨[], rfl⟩
  | cons g rest ih =>
    intro h
    obtain ⟨r, hr⟩ := ih (fun g' hg' => h g' (List.mem_cons_of_mem _ hg'))
    cases hg : fieldResult parse g (valuesFor g.name data) with
    | none => exact ⟨r, by rw [bindFields, hg]; exact hr⟩
    | some exr =>
      cases exr with
      | error e => exact absurd hg (h g (List.mem_cons_self _ _) e)
      | ok v => exact ⟨(g.name, v) :: r, by rw [bindFields, hg, hr]⟩

/-! ### The `from_str` attribute on scalar fields -/

/-- Strip the `from_str` attribute from optional scalar fields. -/
def clearConv (f : FieldDesc) : FieldDesc :=
  if f.shape = .optionalScalar then ⟨f.name, f.shape, false⟩ else f

theorem clearConv_name (f : FieldDesc) : (clearConv f).name = f.name := by
  unfold clearConv
  split <;> rfl

theorem genDecl_clearConv (f : FieldDesc) : genDecl (clearConv f) = genDecl f := by
  unfold clearConv
  by_cases h : f.shape = .optionalScalar
  · rw [if_pos h]
    simp [genDecl, h]
  · rw [if_neg h]

theorem fieldAssign_clearConv (parse : String → Except String τ) (f : FieldDesc)
    (a : Acc) : fieldAssign parse (clearConv f) a = fieldAssign parse f a := by
  unfold clearConv
  by_cases h : f.shape = .optionalScalar
  · rw [if_pos h]
    cases a <;> simp [fieldAssign, h]
  · rw [if_neg h]

theorem initState_map_clearConv (schema : List FieldDesc) :
    initState (schema.map clearConv) =
      (initState schema).map (fun q => (clearConv q.1, q.2)) := by
  induction schema with
  | nil => rfl
  | cons f rest ih =>
    rw [List.map_cons]
    cases h : genDecl f with
    | none =>
      rw [initState_cons_none _ _ (by rw [genDecl_clearConv]; exact h),
        initState_cons_none _ _ h]
      exact ih
    | some a =>
      rw [initState_cons_some _ _ a (by rw [genDecl_clearConv]; exact h),
        initState_cons_some _ _ a h, List.map_cons]
      rw [ih]

theorem stepPair_map_clearConv (kv : String × String) :
    ∀ st : List (FieldDesc × Acc),
      stepPair (st.map (fun q => (clearConv q.1, q.2))) kv =
        (stepPair st kv).map (fun q => (clearConv q.1, q.2)) := by
  intro st
  induction st with
  | nil => rfl
  | cons q rest ih =>
    obtain ⟨f, a⟩ := q
    by_cases h : f.name = kv.1
    · simp [stepPair, clearConv_name, h]
    · simp [stepPair, clearConv_name, h, ih]

theorem foldl_stepPair_map_clearConv :
    ∀ (data : List (String × String)) (st : List (FieldDesc × Acc)),
      data.foldl stepPair (st.map (fun q => (clearConv q.1, q.2))) =
        (data.foldl stepPair st).map (fun q => (clearConv q.1, q.2)) := by
  intro data
  induction data with
  | nil => intro st; rfl
  | cons kv data' ih =>
    intro st
    rw [List.foldl_cons, List.foldl_cons, stepPair_map_clearConv kv st, ih]

theorem buildRecord_map_clearConv (parse : String → Except String τ) :
    ∀ st : List (FieldDesc × Acc),
      buildRecord parse (st.map (fun q => (clearConv q.1, q.2))) =
        buildRecord parse st := by
  intro st
  induction st with
  | nil => rfl
  | cons q rest ih =>
    obtain ⟨f, a⟩ := q
    show buildRecord parse ((clearConv f, a) :: _) = _
    rw [buildRecord, buildRecord, fieldAssign_clearConv, ih, clearConv_name]

/-! ### Unknown keys -/

theorem foldl_stepPair_fst :
    ∀ (data : List (String × String)) (st : List (FieldDesc × Acc)),
      (data.foldl stepPair st).map (fun q => q.1) = st.map (fun q => q.1) := by
  intro data
  induction data with
  | nil => intro st; rfl
  | cons kv data' ih =>
    intro st
    rw [List.foldl_cons, ih, stepPair_fst]

/-! ### Per-field outcome wrappers on a general field descriptor -/

theorem fieldResult_of_requiredScalar (parse : String → Except String τ)
    (f : FieldDesc) (vs : List String)
    (hsh : f.shape = .requiredScalar) (hfs : f.fromStr = false) :
    fieldResult parse f vs =
      some (match lastVal vs with
            | some s => .ok (.scalar s)
            | none => .error ("Missing required field: \x27" ++ f.name ++ "\x27")) := by
  obtain ⟨n, sh, b⟩ := f
  have h1 : sh = .requiredScalar := hsh
  have h2 : b = false := hfs
  subst h1
  subst h2
  exact fieldResult_requiredScalar_raw parse n vs

theorem fieldResult_of_optionalScalar (parse : String → Except String τ)
    (f : FieldDesc) (vs : List String) (hsh : f.shape = .optionalScalar) :
    fieldResult parse f vs = some (.ok (.optScalar (lastVal vs))) := by
  obtain ⟨n, sh, b⟩ := f
  have h1 : sh = .optionalScalar := hsh
  subst h1
  exact fieldResult_optionalScalar parse n b vs

theorem fieldResult_of_requiredList_raw (parse : String → Except String τ)
    (f : FieldDesc) (vs : List String)
    (hsh : f.shape = .requiredList) (hfs : f.fromStr = false) :
    fieldResult parse f vs = some (.ok (.rawList vs)) := by
  obtain ⟨n, sh, b⟩ := f
  have h1 : sh = .requiredList := hsh
  have h2 : b = false := hfs
  subst h1
  subst h2
  exact fieldResult_requiredList_raw parse n vs

theorem fieldResult_of_requiredList_conv (parse : String → Except String τ)
    (f : FieldDesc) (vs : List String)
    (hsh : f.shape = .requiredList) (hfs : f.fromStr = true) :
    fieldResult parse f vs =
      some (match parseAll parse vs with
            | .error e => .error e
            | .ok ws => .ok (.parsedList ws)) := by
  obtain ⟨n, sh, b⟩ := f
  have h1 : sh = .requiredList := hsh
  have h2 : b = true := hfs
  subst h1
  subst h2
  exact fieldResult_requiredList_conv parse n vs

theorem fieldResult_of_optionalList_raw (parse : String → Except String τ)
    (f : FieldDesc) (vs : List String)
    (hsh : f.shape = .optionalList) (hfs : f.fromStr = false) :
    fieldResult parse f vs =
      some (.ok (.optRawList (if vs.isEmpty then none else some vs))) := by
  obtain ⟨n, sh, b⟩ := f
  have h1 : sh = .optionalList := hsh
  have h2 : b = false := hfs
  subst h1
  subst h2
  exact fieldResult_optionalList_raw parse n vs

theorem fieldResult_of_optionalList_conv (parse : String → Except String τ)
    (f : FieldDesc) (vs : List String)
    (hsh : f.shape = .optionalList) (hfs : f.fromStr = true) :
    fieldResult parse f vs =
      some (match parseAll parse vs with
            | .error e => .error e
            | .ok ws => .ok (.optParsedList (if ws.isEmpty then none else some ws))) := by
  obtain ⟨n, sh, b⟩ := f
  have h1 : sh = .optionalList := hsh
  have h2 : b = true := hfs
  subst h1
  subst h2
  exact fieldResult_optionalList_conv parse n vs

/-! ### Claims -/

/-- Claim C3: last value wins for scalar fields.  Whenever the generated
binder succeeds and a scalar field's key occurred at least once, the bound
value is the value of the final occurrence in input order.  (A required
scalar carrying `from_str` is excluded: the macro generates no binding for
it at all; see C8.) -/
theorem claim_C3 (τ : Type) (schema : List FieldDesc)
    (parse : String → Except String τ) (data : List (String × String))
    (f : FieldDesc) (v : String) (r : List (String × BoundValue τ))
    (hnd : (schema.map (fun g => g.name)).Nodup) (hf : f ∈ schema)
    (hlast : lastVal (valuesFor f.name data) = some v)
    (hok : deserialize schema parse data = .ok r) :
    (f.shape = .optionalScalar → (f.name, BoundValue.optScalar (some v)) ∈ r) ∧
    (f.shape = .requiredScalar → f.fromStr = false →
      (f.name, BoundValue.scalar v) ∈ r) := by
  rw [deserialize_eq_bindFields schema parse data hnd] at hok
  constructor
  · intro hsh
    have hres : fieldResult parse f (valuesFor f.name data) =
        some (.ok (.optScalar (some v))) := by
      rw [fieldResult_of_optionalScalar parse f _ hsh, hlast]
    obtain ⟨w, hw, hmem⟩ := bindFields_ok_mem parse data schema r hok f hf _ hres
    cases hw
    exact hmem
  · intro hsh hfs
    have hres : fieldResult parse f (valuesFor f.name data) =
        some (.ok (.scalar v)) := by
      rw [fieldResult_of_requiredScalar parse f _ hsh hfs, hlast]
    obtain ⟨w, hw, hmem⟩ := bindFields_ok_mem parse data schema r hok f hf _ hres
    cases hw
    exact hmem

/-- Witness for C3 at the spec's example: schema `{name: RequiredScalar}`,
input `[("name","A"),("name","B")]` binds `name` to `"B"`. -/
theorem claim_C3_witness :
    ((⟨"name", FieldShape.requiredScalar, false⟩ : FieldDesc).shape = .optionalScalar →
      ("name", BoundValue.optScalar (some "B")) ∈
        [("name", (BoundValue.scalar "B" : BoundValue Int))]) ∧
    ((⟨"name", FieldShape.requiredScalar, false⟩ : FieldDesc).shape = .requiredScalar →
      (⟨"name", FieldShape.requiredScalar, false⟩ : FieldDesc).fromStr = false →
      ("name", BoundValue.scalar "B") ∈
        [("name", (BoundValue.scalar "B" : BoundValue Int))]) :=
  claim_C3 Int [⟨"name", .requiredScalar, false⟩] parseI64
    [("name", "A"), ("name", "B")] ⟨"name", .requiredScalar, false⟩ "B"
    [("name", BoundValue.scalar "B")] (by decide) (by decide) rfl rfl

/-- Claim C5: a list-shaped field without conversion is bound to exactly the
sequence of values submitted under its key, in input order, duplicates
retained (for an optional list, absent when that sequence is empty, else
present with exactly that sequence). -/
theorem claim_C5 (τ : Type) (schema : List FieldDesc)
    (parse : String → Except String τ) (data : List (String × String))
    (f : FieldDesc) (r : List (String × BoundValue τ))
    (hnd : (schema.map (fun g => g.name)).Nodup) (hf : f ∈ schema)
    (hfs : f.fromStr = false)
    (hok : deserialize schema parse data = .ok r) :
    (f.shape = .requiredList →
      (f.name, BoundValue.rawList (valuesFor f.name data)) ∈ r) ∧
    (f.shape = .optionalList →
      (f.name, BoundValue.optRawList
        (if (valuesFor f.name data).isEmpty then none
         else some (valuesFor f.name data))) ∈ r) := by
  rw [deserialize_eq_bindFields schema parse data hnd] at hok
  constructor
  · intro hsh
    have hres := fieldResult_of_requiredList_raw parse f (valuesFor f.name data) hsh hfs
    obtain ⟨w, hw, hmem⟩ := bindFields_ok_mem parse data schema r hok f hf _ hres
    cases hw
    exact hmem
  · intro hsh
    have hres := fieldResult_of_optionalList_raw parse f (valuesFor f.name data) hsh hfs
    obtain ⟨w, hw, hmem⟩ := bindFields_ok_mem parse data schema r hok f hf _ hres
    cases hw
    exact hmem

/-- Witness for C5 at the spec's example: schema `{tags: RequiredList}`,
input `[("tags","a"),("tags","b"),("tags","a")]` binds `tags` to
`["a","b","a"]`. -/
theorem claim_C5_witness :
    ((⟨"tags", FieldShape.requiredList, false⟩ : FieldDesc).shape = .requiredList →
      ("tags", BoundValue.rawList
          (valuesFor "tags" [("tags", "a"), ("tags", "b"), ("tags", "a")])) ∈
        [("tags", (BoundValue.rawList ["a", "b", "a"] : BoundValue Int))]) ∧
    ((⟨"tags", FieldShape.requiredList, false⟩ : FieldDesc).shape = .optionalList →
      ("tags", BoundValue.optRawList
          (if (valuesFor "tags" [("tags", "a"), ("tags", "b"), ("tags", "a")]).isEmpty
           then none
           else some (valuesFor "tags" [("tags", "a"), ("tags", "b"), ("tags", "a")]))) ∈
        [("tags", (BoundValue.rawList ["a", "b", "a"] : BoundValue Int))]) :=
  claim_C5 Int [⟨"tags", .requiredList, false⟩] parseI64
    [("tags", "a"), ("tags", "b"), ("tags", "a")] ⟨"tags", .requiredList, false⟩
    [("tags", BoundValue.rawList ["a", "b", "a"])] (by decide) (by decide) rfl rfl

/-- Claim C9: a pair whose key matches no field name of the schema is
silently ignored: inserting it anywhere in the submission leaves the result
of the generated binder unchanged, so no error is ever raised because of
it. -/
theorem claim_C9 (τ : Type) (schema : List FieldDesc)
    (parse : String → Except String τ) (k v : String)
    (pre post : List (String × String))
    (hk : k ∉ schema.map FieldDesc.name) :
    deserialize schema parse (pre ++ (k, v) :: post) =
      deserialize schema parse (pre ++ post) := by
  unfold deserialize
  rw [List.foldl_append, List.foldl_append, List.foldl_cons]
  have hskip : stepPair (pre.foldl stepPair (initState schema)) (k, v) =
      pre.foldl stepPair (initState schema) := by
    apply stepPair_skip
    intro q hq hcon
    have h1 : q.1 ∈ (pre.foldl stepPair (initState schema)).map (fun q => q.1) :=
      List.mem_map_of_mem _ hq
    rw [foldl_stepPair_fst] at h1
    have h2 : q.1 ∈ schema := initState_fst_subset schema q.1 h1
    apply hk
    rw [show k = q.1.name from hcon.symm]
    exact List.mem_map_of_mem FieldDesc.name h2
  rw [hskip]

/-- Witness for C9 at the spec's example: schema `{name: RequiredScalar}`,
adding `("extra","x")` after `("name","A")` changes nothing. -/
theorem claim_C9_witness :
    deserialize [⟨"name", FieldShape.requiredScalar, false⟩] parseI64
        ([("name", "A")] ++ ("extra", "x") :: []) =
      deserialize [⟨"name", FieldShape.requiredScalar, false⟩] parseI64
        ([("name", "A")] ++ []) :=
  claim_C9 Int [⟨"name", .requiredScalar, false⟩] parseI64 "extra" "x"
    [("name", "A")] [] (by decide)

/-- Counterexample to claim C1 as stated: schema `{scores: OptionalList}`
with `from_str`, input `[("scores","abc")]`.  The generated code returns
`Err(e.to_string())` — exactly the stringified parse error — and the
declared field name `scores` does not occur in that message, so the error
does not reference (carry the declared name of) the failing field. -/
theorem claim_C1_cex :
    deserialize [⟨"scores", FieldShape.optionalList, true⟩] parseI64
        [("scores", "abc")] = .error "invalid digit found in string" ∧
    strOccurs "scores" "invalid digit found in string" = false :=
  ⟨rfl, rfl⟩

/-- Claim C1 (amended): when at least one submitted value of a list-shaped
field with a declared conversion fails to parse, the generated binder
returns an error and no record — partial or otherwise — is produced; when
that field is moreover the first failing field in schema order, the error
message is exactly the stringified underlying parse error (the first one in
input order), which does not include the field's declared name. -/
theorem claim_C1 (τ : Type) (pre post : List FieldDesc) (f : FieldDesc)
    (parse : String → Except String τ) (data : List (String × String))
    (hnd : ((pre ++ f :: post).map (fun g => g.name)).Nodup)
    (hshape : f.shape = .requiredList ∨ f.shape = .optionalList)
    (hfs : f.fromStr = true)
    (hfail : ∃ v ∈ valuesFor f.name data, ∃ pe, parse v = .error pe) :
    (∃ e, deserialize (pre ++ f :: post) parse data = .error e) ∧
    (∀ e, parseAll parse (valuesFor f.name data) = .error e →
      (∀ g ∈ pre, ∀ e', fieldResult parse g (valuesFor g.name data) ≠ some (.error e')) →
      deserialize (pre ++ f :: post) parse data = .error e) := by
  obtain ⟨v, hv, hpe⟩ := hfail
  obtain ⟨e₀, he₀⟩ := parseAll_error_of_mem parse (valuesFor f.name data) v hv hpe
  have hres : ∀ e, parseAll parse (valuesFor f.name data) = .error e →
      fieldResult parse f (valuesFor f.name data) = some (.error e) := by
    intro e he
    cases hshape with
    | inl hsh => rw [fieldResult_of_requiredList_conv parse f _ hsh hfs, he]
    | inr hsh => rw [fieldResult_of_optionalList_conv parse f _ hsh hfs, he]
  have hmem : f ∈ pre ++ f :: post :=
    List.mem_append_right _ (List.mem_cons_self _ _)
  constructor
  · obtain ⟨e', he'⟩ :=
      bindFields_error_of_mem parse data (pre ++ f :: post) f hmem e₀ (hres e₀ he₀)
    exact ⟨e', by rw [deserialize_eq_bindFields _ _ _ hnd]; exact he'⟩
  · intro e he hpre
    rw [deserialize_eq_bindFields _ _ _ hnd]
    exact bindFields_first_error parse data pre f post e hpre (hres e he)

/-- Witness for the amended C1 at the spec's example. -/
theorem claim_C1_witness :
    (∃ e, deserialize [⟨"scores", FieldShape.optionalList, true⟩] parseI64
        [("scores", "abc")] = .error e) ∧
    (∀ e, parseAll parseI64 (valuesFor "scores" [("scores", "abc")]) = .error e →
      (∀ g ∈ ([] : List FieldDesc), ∀ e',
        fieldResult parseI64 g (valuesFor g.name [("scores", "abc")]) ≠
          some (.error e')) →
      deserialize [⟨"scores", FieldShape.optionalList, true⟩] parseI64
        [("scores", "abc")] = .error e) :=
  claim_C1 Int [] [] ⟨"scores", .optionalList, true⟩ parseI64 [("scores", "abc")]
    (by decide) (Or.inr rfl) rfl
    ⟨"abc", by decide, "invalid digit found in string", rfl⟩

/-- Counterexample to claim C2 as stated: schema
`{a: RequiredScalar, b: RequiredScalar}`, input `[]`.  Field `b` is a
required scalar with zero pairs for its key, yet the surfaced message names
field `a` (the first failing field in schema order), not `b`. -/
theorem claim_C2_cex :
    deserialize [⟨"a", FieldShape.requiredScalar, false⟩,
        ⟨"b", FieldShape.requiredScalar, false⟩] parseI64 [] =
      .error "Missing required field: \x27a\x27" ∧
    valuesFor "b" [] = [] ∧
    "Missing required field: \x27a\x27" ≠ "Missing required field: \x27b\x27" :=
  ⟨rfl, rfl, by decide⟩

/-- Claim C2 (amended): a required scalar field without conversion whose key
has zero occurrences always makes the generated binder fail, and when that
field is the first failing field in schema order (in particular whenever it
is the only failing one) the error message is exactly
`Missing required field: '<name>'` with the field's declared name. -/
theorem claim_C2 (τ : Type) (pre post : List FieldDesc) (f : FieldDesc)
    (parse : String → Except String τ) (data : List (String × String))
    (hnd : ((pre ++ f :: post).map (fun g => g.name)).Nodup)
    (hshape : f.shape = .requiredScalar) (hfs : f.fromStr = false)
    (hmiss : valuesFor f.name data = []) :
    (∃ e, deserialize (pre ++ f :: post) parse data = .error e) ∧
    ((∀ g ∈ pre, ∀ e', fieldResult parse g (valuesFor g.name data) ≠ some (.error e')) →
      deserialize (pre ++ f :: post) parse data =
        .error ("Missing required field: \x27" ++ f.name ++ "\x27")) := by
  have hres : fieldResult parse f (valuesFor f.name data) =
      some (.error ("Missing required field: \x27" ++ f.name ++ "\x27")) := by
    rw [fieldResult_of_requiredScalar parse f _ hshape hfs, hmiss]
    rfl
  have hmem : f ∈ pre ++ f :: post :=
    List.mem_append_right _ (List.mem_cons_self _ _)
  constructor
  · obtain ⟨e', he'⟩ :=
      bindFields_error_of_mem parse data (pre ++ f :: post) f hmem _ hres
    exact ⟨e', by rw [deserialize_eq_bindFields _ _ _ hnd]; exact he'⟩
  · intro hpre
    rw [deserialize_eq_bindFields _ _ _ hnd]
    exact bindFields_first_error parse data pre f post _ hpre hres

/-- Witness for the amended C2 at the spec's example: schema
`{name: RequiredScalar}`, input `[]`. -/
theorem claim_C2_witness :
    (∃ e, deserialize [⟨"name", FieldShape.requiredScalar, false⟩] parseI64 [] =
      .error e) ∧
    ((∀ g ∈ ([] : List FieldDesc), ∀ e',
        fieldResult parseI64 g (valuesFor g.name []) ≠ some (.error e')) →
      deserialize [⟨"name", FieldShape.requiredScalar, false⟩] parseI64 [] =
        .error ("Missing required field: \x27" ++ "name" ++ "\x27")) :=
  claim_C2 Int [] [] ⟨"name", .requiredScalar, false⟩ parseI64 []
    (by decide) rfl rfl rfl

/-- Claim C4: the generated binder returns either a record in which every
field with generated binding code is bound to its own field outcome, or a
single error; when any field fails, the surfaced error is exactly the error
of the first field in schema order whose outcome fails; and when no field's
outcome fails the binder succeeds.  No partially populated result is ever
visible to the caller. -/
theorem claim_C4 (τ : Type) (schema : List FieldDesc)
    (parse : String → Except String τ) (data : List (String × String))
    (hnd : (schema.map (fun g => g.name)).Nodup) :
    (∀ r, deserialize schema parse data = .ok r →
      ∀ f ∈ schema, ∀ res, fieldResult parse f (valuesFor f.name data) = some res →
        ∃ v, res = .ok v ∧ (f.name, v) ∈ r) ∧
    (∀ (pre : List FieldDesc) (f : FieldDesc) (post : List FieldDesc) (e : String),
      schema = pre ++ f :: post →
      (∀ g ∈ pre, ∀ e', fieldResult parse g (valuesFor g.name data) ≠ some (.error e')) →
      fieldResult parse f (valuesFor f.name data) = some (.error e) →
      deserialize schema parse data = .error e) ∧
    ((∀ f ∈ schema, ∀ e, fieldResult parse f (valuesFor f.name data) ≠ some (.error e)) →
      ∃ r, deserialize schema parse data = .ok r) := by
  rw [deserialize_eq_bindFields schema parse data hnd]
  refine ⟨?_, ?_, ?_⟩
  · intro r hr f hf res hres
    exact bindFields_ok_mem parse data schema r hr f hf res hres
  · intro pre f post e hsp hpre hf
    subst hsp
    exact bindFields_first_error parse data pre f post e hpre hf
  · intro h
    exact bindFields_ok_of_all parse data schema h

/-- Witness for C4 on the two-failure schema of the C2 counterexample: the
surfaced error is the first failing field's. -/
theorem claim_C4_witness :
    (∀ r, deserialize [⟨"a", FieldShape.requiredScalar, false⟩,
        ⟨"b", FieldShape.requiredScalar, false⟩] parseI64 [] = .ok r →
      ∀ f ∈ [(⟨"a", FieldShape.requiredScalar, false⟩ : FieldDesc),
        ⟨"b", FieldShape.requiredScalar, false⟩], ∀ res,
        fieldResult parseI64 f (valuesFor f.name []) = some res →
        ∃ v, res = .ok v ∧ (f.name, v) ∈ r) ∧
    (∀ (pre : List FieldDesc) (f : FieldDesc) (post : List FieldDesc) (e : String),
      [(⟨"a", FieldShape.requiredScalar, false⟩ : FieldDesc),
        ⟨"b", FieldShape.requiredScalar, false⟩] = pre ++ f :: post →
      (∀ g ∈ pre, ∀ e', fieldResult parseI64 g (valuesFor g.name []) ≠ some (.error e')) →
      fieldResult parseI64 f (valuesFor f.name []) = some (.error e) →
      deserialize [⟨"a", FieldShape.requiredScalar, false⟩,
        ⟨"b", FieldShape.requiredScalar, false⟩] parseI64 [] = .error e) ∧
    ((∀ f ∈ [(⟨"a", FieldShape.requiredScalar, false⟩ : FieldDesc),
        ⟨"b", FieldShape.requiredScalar, false⟩], ∀ e,
        fieldResult parseI64 f (valuesFor f.name []) ≠ some (.error e)) →
      ∃ r, deserialize [⟨"a", FieldShape.requiredScalar, false⟩,
        ⟨"b", FieldShape.requiredScalar, false⟩] parseI64 [] = .ok r) :=
  claim_C4 Int [⟨"a", .requiredScalar, false⟩, ⟨"b", .requiredScalar, false⟩]
    parseI64 [] (by decide)

/-- Claim C6: an optional list field with a declared conversion is absent
when its key has zero occurrences; otherwise every value is parsed in input
order, the call aborts with the first parse failure (surfacing exactly that
error when the field is the first failing field in schema order), and when
all values parse the field is present with the parsed list. -/
theorem claim_C6 (τ : Type) (pre post : List FieldDesc) (f : FieldDesc)
    (parse : String → Except String τ) (data : List (String × String))
    (hnd : ((pre ++ f :: post).map (fun g => g.name)).Nodup)
    (hshape : f.shape = .optionalList) (hfs : f.fromStr = true) :
    (valuesFor f.name data = [] →
      ∀ r, deserialize (pre ++ f :: post) parse data = .ok r →
        (f.name, BoundValue.optParsedList (none : Option (List τ))) ∈ r) ∧
    (∀ (p : List String) (v : String) (q : List String) (e : String),
      valuesFor f.name data = p ++ v :: q → (∀ u ∈ p, ∃ w, parse u = .ok w) →
      parse v = .error e →
      (∃ e', deserialize (pre ++ f :: post) parse data = .error e') ∧
      ((∀ g ∈ pre, ∀ e', fieldResult parse g (valuesFor g.name data) ≠ some (.error e')) →
        deserialize (pre ++ f :: post) parse data = .error e)) ∧
    (∀ ws : List τ, parseAll parse (valuesFor f.name data) = .ok ws →
      List.Forall₂ (fun u w => parse u = .ok w) (valuesFor f.name data) ws ∧
      (ws ≠ [] → ∀ r, deserialize (pre ++ f :: post) parse data = .ok r →
        (f.name, BoundValue.optParsedList (some ws)) ∈ r)) := by
  have hmem : f ∈ pre ++ f :: post :=
    List.mem_append_right _ (List.mem_cons_self _ _)
  refine ⟨?_, ?_, ?_⟩
  · intro hempty r hok
    rw [deserialize_eq_bindFields _ _ _ hnd] at hok
    have hres : fieldResult parse f (valuesFor f.name data) =
        some (.ok (.optParsedList (none : Option (List τ)))) := by
      rw [fieldResult_of_optionalList_conv parse f _ hshape hfs, hempty]
      rfl
    obtain ⟨w, hw, hmemr⟩ :=
      bindFields_ok_mem parse data (pre ++ f :: post) r hok f hmem _ hres
    cases hw
    exact hmemr
  · intro p v q e hsplit hokp hv
    have hpa : parseAll parse (valuesFor f.name data) = .error e := by
      rw [hsplit]
      exact parseAll_first_error parse p v q e hokp hv
    have hres : fieldResult parse f (valuesFor f.name data) = some (.error e) := by
      rw [fieldResult_of_optionalList_conv parse f _ hshape hfs, hpa]
    constructor
    · obtain ⟨e', he'⟩ :=
        bindFields_error_of_mem parse data (pre ++ f :: post) f hmem e hres
      exact ⟨e', by rw [deserialize_eq_bindFields _ _ _ hnd]; exact he'⟩
    · intro hpre
      rw [deserialize_eq_bindFields _ _ _ hnd]
      exact bindFields_first_error parse data pre f post e hpre hres
  · intro ws hws
    refine ⟨parseAll_ok_forall₂ parse _ ws hws, ?_⟩
    intro hne r hok
    rw [deserialize_eq_bindFields _ _ _ hnd] at hok
    have hres : fieldResult parse f (valuesFor f.name data) =
        some (.ok (.optParsedList (some ws))) := by
      rw [fieldResult_of_optionalList_conv parse f _ hshape hfs, hws]
      have hwe : ws.isEmpty = false := by
        cases ws with
        | nil => exact absurd rfl hne
        | cons w ws' => rfl
      simp [hwe]
    obtain ⟨w, hw, hmemr⟩ :=
      bindFields_ok_mem parse data (pre ++ f :: post) r hok f hmem _ hres
    cases hw
    exact hmemr

/-- Witness for C6 at the spec's conversion-success example: schema
`{scores: OptionalList, from_str}`, input `[("scores","1"),("scores","2")]`. -/
theorem claim_C6_witness :
    (valuesFor "scores" [("scores", "1"), ("scores", "2")] = [] →
      ∀ r, deserialize [⟨"scores", FieldShape.optionalList, true⟩] parseI64
          [("scores", "1"), ("scores", "2")] = .ok r →
        ("scores", BoundValue.optParsedList (none : Option (List Int))) ∈ r) ∧
    (∀ (p : List String) (v : String) (q : List String) (e : String),
      valuesFor "scores" [("scores", "1"), ("scores", "2")] = p ++ v :: q →
      (∀ u ∈ p, ∃ w, parseI64 u = .ok w) → parseI64 v = .error e →
      (∃ e', deserialize [⟨"scores", FieldShape.optionalList, true⟩] parseI64
          [("scores", "1"), ("scores", "2")] = .error e') ∧
      ((∀ g ∈ ([] : List FieldDesc), ∀ e',
          fieldResult parseI64 g
            (valuesFor g.name [("scores", "1"), ("scores", "2")]) ≠
            some (.error e')) →
        deserialize [⟨"scores", FieldShape.optionalList, true⟩] parseI64
          [("scores", "1"), ("scores", "2")] = .error e)) ∧
    (∀ ws : List Int,
      parseAll parseI64 (valuesFor "scores" [("scores", "1"), ("scores", "2")]) =
        .ok ws →
      List.Forall₂ (fun u w => parseI64 u = .ok w)
        (valuesFor "scores" [("scores", "1"), ("scores", "2")]) ws ∧
      (ws ≠ [] → ∀ r, deserialize [⟨"scores", FieldShape.optionalList, true⟩]
          parseI64 [("scores", "1"), ("scores", "2")] = .ok r →
        ("scores", BoundValue.optParsedList (some ws)) ∈ r)) :=
  claim_C6 Int [] [] ⟨"scores", .optionalList, true⟩ parseI64
    [("scores", "1"), ("scores", "2")] (by decide) rfl rfl

/-- Counterexample to claim C7 as stated: schema
`{tags: RequiredList, name: RequiredScalar}`, input `[]`.  The submission
has zero pairs for `tags`, yet the binder does not succeed — the missing
required scalar `name` fails the whole call. -/
theorem claim_C7_cex :
    deserialize [⟨"tags", FieldShape.requiredList, false⟩,
        ⟨"name", FieldShape.requiredScalar, false⟩] parseI64 [] =
      .error "Missing required field: \x27name\x27" ∧
    exceptIsOk (deserialize [⟨"tags", FieldShape.requiredList, false⟩,
        ⟨"name", FieldShape.requiredScalar, false⟩] parseI64 []) = false ∧
    valuesFor "tags" [] = [] :=
  ⟨rfl, rfl, rfl⟩

/-- Claim C7 (amended): an empty required list is never an error: the
field's own outcome is the empty list (raw, or parsed when `from_str` is
declared), whenever the binder succeeds the field is bound to the empty
list, and the binder does succeed whenever no other field's outcome fails. -/
theorem claim_C7 (τ : Type) (schema : List FieldDesc)
    (parse : String → Except String τ) (data : List (String × String))
    (f : FieldDesc)
    (hnd : (schema.map (fun g => g.name)).Nodup) (hf : f ∈ schema)
    (hshape : f.shape = .requiredList)
    (hmiss : valuesFor f.name data = []) :
    fieldResult parse f (valuesFor f.name data) =
      some (.ok (if f.fromStr then BoundValue.parsedList ([] : List τ)
                 else BoundValue.rawList [])) ∧
    (∀ r, deserialize schema parse data = .ok r →
      (f.name, if f.fromStr then BoundValue.parsedList ([] : List τ)
               else BoundValue.rawList []) ∈ r) ∧
    ((∀ g ∈ schema, ∀ e, fieldResult parse g (valuesFor g.name data) ≠ some (.error e)) →
      ∃ r, deserialize schema parse data = .ok r) := by
  have hres : fieldResult parse f (valuesFor f.name data) =
      some (.ok (if f.fromStr then BoundValue.parsedList ([] : List τ)
                 else BoundValue.rawList [])) := by
    cases hb : f.fromStr with
    | false =>
      rw [fieldResult_of_requiredList_raw parse f _ hshape hb, hmiss]
      rfl
    | true =>
      rw [fieldResult_of_requiredList_conv parse f _ hshape hb, hmiss]
      rfl
  refine ⟨hres, ?_, ?_⟩
  · intro r hok
    rw [deserialize_eq_bindFields _ _ _ hnd] at hok
    obtain ⟨w, hw, hmem⟩ := bindFields_ok_mem parse data schema r hok f hf _ hres
    cases hw
    exact hmem
  · intro h
    obtain ⟨r, hr⟩ := bindFields_ok_of_all parse data schema h
    exact ⟨r, by rw [deserialize_eq_bindFields _ _ _ hnd]; exact hr⟩

/-- Witness for the amended C7 at the spec's example: schema
`{tags: RequiredList}`, input `[]` binds `tags` to `[]`. -/
theorem claim_C7_witness :
    fieldResult parseI64 (⟨"tags", FieldShape.requiredList, false⟩ : FieldDesc)
      (valuesFor "tags" []) =
      some (.ok (if (⟨"tags", FieldShape.requiredList, false⟩ : FieldDesc).fromStr
                 then BoundValue.parsedList ([] : List Int)
                 else BoundValue.rawList [])) ∧
    (∀ r, deserialize [⟨"tags", FieldShape.requiredList, false⟩] parseI64 [] = .ok r →
      ("tags", if (⟨"tags", FieldShape.requiredList, false⟩ : FieldDesc).fromStr
               then BoundValue.parsedList ([] : List Int)
               else BoundValue.rawList []) ∈ r) ∧
    ((∀ g ∈ [(⟨"tags", FieldShape.requiredList, false⟩ : FieldDesc)], ∀ e,
        fieldResult parseI64 g (valuesFor g.name []) ≠ some (.error e)) →
      ∃ r, deserialize [⟨"tags", FieldShape.requiredList, false⟩] parseI64 [] = .ok r) :=
  claim_C7 Int [⟨"tags", .requiredList, false⟩] parseI64 []
    ⟨"tags", .requiredList, false⟩ (by decide) (by decide) rfl rfl

/-- Counterexample to claim C8 as stated: a required scalar field `name`
with the `from_str` annotation is not bound as a raw string identically to
the unannotated field.  The macro generates no declaration, no match arm and
no assignment for it (the empty branch at line 127), so the field is absent
from the produced record, while the unannotated field binds to `"A"`. -/
theorem claim_C8_cex :
    deserialize [⟨"name", FieldShape.requiredScalar, true⟩] parseI64
        [("name", "A")] = .ok [] ∧
    deserialize [⟨"name", FieldShape.requiredScalar, false⟩] parseI64
        [("name", "A")] = .ok [("name", BoundValue.scalar "A")] ∧
    ([] : List (String × BoundValue Int)) ≠ [("name", BoundValue.scalar "A")] :=
  ⟨rfl, rfl, by decide⟩

/-- Claim C8 (amended): the `from_str` annotation has no effect on optional
scalar fields — stripping it from every optional scalar field leaves the
binder's behaviour identical — but on a required scalar field the macro's
conversion branch is empty: no binding code is generated at all, the field
behaves as if it were deleted from the schema (and the generated constructor,
missing that field, would not even compile). -/
theorem claim_C8 :
    (∀ (τ : Type) (schema : List FieldDesc) (parse : String → Except String τ)
        (data : List (String × String)),
      deserialize (schema.map clearConv) parse data = deserialize schema parse data) ∧
    (∀ (τ : Type) (pre post : List FieldDesc) (f : FieldDesc)
        (parse : String → Except String τ) (data : List (String × String)),
      f.shape = FieldShape.requiredScalar → f.fromStr = true →
      deserialize (pre ++ f :: post) parse data = deserialize (pre ++ post) parse data) := by
  constructor
  · intro τ schema parse data
    unfold deserialize
    rw [initState_map_clearConv, foldl_stepPair_map_clearConv, buildRecord_map_clearConv]
  · intro τ pre post f parse data h1 h2
    have hdecl : genDecl f = none := by
      obtain ⟨n, sh, b⟩ := f
      have h1' : sh = FieldShape.requiredScalar := h1
      have h2' : b = true := h2
      subst h1'
      subst h2'
      rfl
    unfold deserialize
    rw [initState_append, initState_cons_none f post hdecl, ← initState_append]

/-- Witness for the amended C8: stripping `from_str` from an optional scalar
changes nothing, and a required scalar with `from_str` behaves as a deleted
field. -/
theorem claim_C8_witness :
    deserialize ([⟨"opt", FieldShape.optionalScalar, true⟩].map clearConv) parseI64
        [("opt", "A")] =
      deserialize [⟨"opt", FieldShape.optionalScalar, true⟩] parseI64 [("opt", "A")] ∧
    deserialize ([] ++ (⟨"name", FieldShape.requiredScalar, true⟩ : FieldDesc) :: [])
        parseI64 [("name", "A")] =
      deserialize ([] ++ []) parseI64 [("name", "A")] :=
  ⟨claim_C8.1 Int [⟨"opt", .optionalScalar, true⟩] parseI64 [("opt", "A")],
   claim_C8.2 Int [] [] ⟨"name", .requiredScalar, true⟩ parseI64 [("name", "A")]
     rfl rfl⟩

/-- Counterexample to claim C10 as stated: schema `{name: RequiredScalar}`,
input `[("name",""),("name","x")]`.  The submission contains the pair
`("name","")`, yet the field binds to `"x"`, not to the empty string — last
value wins over the empty occurrence. -/
theorem claim_C10_cex :
    deserialize [⟨"name", FieldShape.requiredScalar, false⟩] parseI64
        [("name", ""), ("name", "x")] = .ok [("name", BoundValue.scalar "x")] ∧
    ("name", "") ∈ [("name", ""), ("name", "x")] ∧
    (BoundValue.scalar "x" : BoundValue Int) ≠ BoundValue.scalar "" :=
  ⟨rfl, by decide, by decide⟩

/-- Claim C10 (amended): presence, not non-emptiness, satisfies a scalar
field: when the final occurrence of the field's key carries the empty
string, a required scalar (without `from_str`) raises no missing-field error
and binds to `""` whenever the binder succeeds, and an optional scalar is
present with the empty string rather than absent. -/
theorem claim_C10 (τ : Type) (schema : List FieldDesc)
    (parse : String → Except String τ) (data : List (String × String))
    (f : FieldDesc)
    (hnd : (schema.map (fun g => g.name)).Nodup) (hf : f ∈ schema)
    (hlast : lastVal (valuesFor f.name data) = some "") :
    (f.shape = .requiredScalar → f.fromStr = false →
      (∀ e, fieldResult parse f (valuesFor f.name data) ≠ some (.error e)) ∧
      ∀ r, deserialize schema parse data = .ok r →
        (f.name, BoundValue.scalar "") ∈ r) ∧
    (f.shape = .optionalScalar →
      ∀ r, deserialize schema parse data = .ok r →
        (f.name, BoundValue.optScalar (some "")) ∈ r) := by
  constructor
  · intro hsh hfs
    have hres : fieldResult parse f (valuesFor f.name data) =
        some (.ok (.scalar "")) := by
      rw [fieldResult_of_requiredScalar parse f _ hsh hfs, hlast]
    constructor
    · intro e hcon
      rw [hres] at hcon
      cases hcon
    · intro r hok
      rw [deserialize_eq_bindFields _ _ _ hnd] at hok
      obtain ⟨w, hw, hmem⟩ := bindFields_ok_mem parse data schema r hok f hf _ hres
      cases hw
      exact hmem
  · intro hsh
    have hres : fieldResult parse f (valuesFor f.name data) =
        some (.ok (.optScalar (some ""))) := by
      rw [fieldResult_of_optionalScalar parse f _ hsh, hlast]
    intro r hok
    rw [deserialize_eq_bindFields _ _ _ hnd] at hok
    obtain ⟨w, hw, hmem⟩ := bindFields_ok_mem parse data schema r hok f hf _ hres
    cases hw
    exact hmem

/-- Witness for the amended C10: input `[("name","")]` binds the required
scalar `name` to the empty string. -/
theorem claim_C10_witness :
    ((⟨"name", FieldShape.requiredScalar, false⟩ : FieldDesc).shape = .requiredScalar →
      (⟨"name", FieldShape.requiredScalar, false⟩ : FieldDesc).fromStr = false →
      (∀ e, fieldResult parseI64 (⟨"name", FieldShape.requiredScalar, false⟩ : FieldDesc)
          (valuesFor "name" [("name", "")]) ≠ some (.error e)) ∧
      ∀ r, deserialize [⟨"name", FieldShape.requiredScalar, false⟩] parseI64
          [("name", "")] = .ok r →
        ("name", (BoundValue.scalar "" : BoundValue Int)) ∈ r) ∧
    ((⟨"name", FieldShape.requiredScalar, false⟩ : FieldDesc).shape = .optionalScalar →
      ∀ r, deserialize [⟨"name", FieldShape.requiredScalar, false⟩] parseI64
          [("name", "")] = .ok r →
        ("name", (BoundValue.optScalar (some "") : BoundValue Int)) ∈ r) :=
  claim_C10 Int [⟨"name", .requiredScalar, false⟩] parseI64 [("name", "")]
    ⟨"name", .requiredScalar, false⟩ (by decide) (by decide) rfl

end WebformD
